import Mathlib

/-
Verification development for the promptly Discord bot (src/index.js).
The source is shallowly embedded: JS strings are lists of Unicode code
points (List Char), byte buffers are lists of Fin 256, per-call
randomness (the IV) and the external block cipher (the AES-256 core
under the CBC mode of the node crypto module) are explicit parameters,
and the event-driven handlers become pure functions from state and
inputs to state and an ordered trace of observable effects.
-/

namespace Promptly

/-- Bytes as natural numbers below 256, the elements of a node Buffer. -/
abbrev Byte := Fin 256

/-- JS strings modelled as lists of Unicode code points. -/
abbrev Str := List Char

/-! ## Hex encoding and decoding (Buffer.toString and Buffer.from with encoding hex) -/

/-- Value of a hex digit character; both cases accepted, as Buffer.from does. -/
def hexDigitVal (c : Char) : Option (Fin 16) :=
  if h : 48 ≤ c.toNat ∧ c.toNat ≤ 57 then some ⟨c.toNat - 48, by omega⟩
  else if h : 97 ≤ c.toNat ∧ c.toNat ≤ 102 then some ⟨c.toNat - 87, by omega⟩
  else if h : 65 ≤ c.toNat ∧ c.toNat ≤ 70 then some ⟨c.toNat - 55, by omega⟩
  else none

/-- Lowercase hex digit for a value below 16, as Buffer.toString produces. -/
def toHexChar (d : Fin 16) : Char :=
  if d.val < 10 then Char.ofNat (48 + d.val) else Char.ofNat (87 + d.val)

/-- Two lowercase hex digits of one byte. -/
def hexByte (b : Byte) : Str :=
  [toHexChar ⟨b.val / 16, by omega⟩, toHexChar ⟨b.val % 16, by omega⟩]

/-- Hex encoding of a byte list, as iv.toString with encoding hex. -/
def hexEncode : List Byte → Str
  | [] => []
  | b :: bs => hexByte b ++ hexEncode bs

/-- Node Buffer.from with encoding hex: decodes character pairs from the left
and stops silently at the first pair containing a non-hex character or at a
trailing lone character; invalid input truncates, it never throws. -/
def hexDecodeNode : Str → List Byte
  | c1 :: c2 :: rest =>
    match hexDigitVal c1, hexDigitVal c2 with
    | some h, some l => ⟨16 * h.val + l.val, by omega⟩ :: hexDecodeNode rest
    | _, _ => []
  | _ => []

/-- Whether every character of a string is a hex digit (strict hex validity,
the reading under which hex decoding of a segment can be said to fail). -/
def allHex (s : Str) : Bool :=
  s.all fun c => (hexDigitVal c).isSome

/-! ## Splitting and joining on the colon (String.prototype.split and Array.join) -/

/-- JS text.split of the colon character. -/
def splitOnColon : Str → List Str
  | [] => [[]]
  | c :: cs =>
    if c = ':' then [] :: splitOnColon cs
    else
      match splitOnColon cs with
      | [] => [[c]]
      | p :: ps => (c :: p) :: ps

/-- JS parts.join of the colon character. -/
def joinColon : List Str → Str
  | [] => []
  | [x] => x
  | x :: xs => x ++ ':' :: joinColon xs

/-! ## PKCS#7 padding, as applied by the OpenSSL backend of aes-256-cbc -/

/-- Number of padding bytes appended to a plaintext of the given length. -/
def padLen (n : Nat) : Nat := 16 - n % 16

/-- PKCS#7 pad to a whole number of 16-byte blocks. -/
def pad16 (xs : List Byte) : List Byte :=
  xs ++ List.replicate (padLen xs.length) ⟨padLen xs.length, by unfold padLen; omega⟩

/-- PKCS#7 unpad: the last byte names the padding length, which must be
between 1 and 16 and all padding bytes must carry that value; otherwise the
decryption is rejected (bad decrypt). -/
def unpad16 (xs : List Byte) : Option (List Byte) :=
  match xs.getLast? with
  | none => none
  | some b =>
    if 1 ≤ b.val ∧ b.val ≤ 16 ∧ b.val ≤ xs.length ∧
        (xs.drop (xs.length - b.val)).all (· = b)
    then some (xs.take (xs.length - b.val)) else none

/-! ## Block chaining (CBC mode) -/

/-- Bytewise xor of two equal-length buffers. -/
def xorB (a b : Byte) : Byte :=
  ⟨a.val ^^^ b.val, show a.val ^^^ b.val < 2 ^ 8 from Nat.xor_lt_two_pow a.isLt b.isLt⟩

/-- Xor of two buffers, pointwise. -/
def zipXor (a b : List Byte) : List Byte := List.zipWith xorB a b

/-- The AES-256 block permutation and its inverse under the fixed process-wide
key, kept abstract: the embedding is parametric in the cipher core, and the
CBC mode, padding and token format around it are modelled concretely. -/
structure BlockCipher where
  enc : List Byte → List Byte
  dec : List Byte → List Byte

/-- The block cipher contract: decryption inverts encryption on 16-byte
blocks and encryption preserves the block size. -/
def BlockCipher.Valid (C : BlockCipher) : Prop :=
  (∀ b : List Byte, b.length = 16 → C.dec (C.enc b) = b) ∧
  (∀ b : List Byte, b.length = 16 → (C.enc b).length = 16)

/-- Degenerate block cipher used to evaluate the model on concrete tokens. -/
def idCipher : BlockCipher := ⟨id, id⟩

/-- CBC encryption of a list of blocks with the given chaining value. -/
def cbcEncBlocks (C : BlockCipher) (prev : List Byte) : List (List Byte) → List (List Byte)
  | [] => []
  | b :: bs =>
    let c := C.enc (zipXor prev b)
    c :: cbcEncBlocks C c bs

/-- CBC decryption of a list of blocks with the given chaining value. -/
def cbcDecBlocks (C : BlockCipher) (prev : List Byte) : List (List Byte) → List (List Byte)
  | [] => []
  | b :: bs => zipXor prev (C.dec b) :: cbcDecBlocks C b bs

/-- Fuel-indexed splitter of a buffer into 16-byte blocks; the fuel is a
bound on the number of steps and is always used at the buffer length, which
suffices since each step strictly shortens a nonempty buffer. -/
def toBlocksF : Nat → List Byte → List (List Byte)
  | _, [] => []
  | 0, _ :: _ => []
  | n + 1, x :: xs => (x :: xs).take 16 :: toBlocksF n ((x :: xs).drop 16)

/-- Split a buffer into consecutive 16-byte blocks (the last may be short
when the length is not a multiple of 16; decrypt rejects that case first). -/
def toBlocks (xs : List Byte) : List (List Byte) := toBlocksF xs.length xs

/-- Concatenation of a list of blocks back into one buffer. -/
def flattenBlocks : List (List Byte) → List Byte
  | [] => []
  | b :: bs => b ++ flattenBlocks bs

/-! ## encrypt and decrypt (src/index.js lines 33-54)

The plaintext is the utf8 byte buffer the node cipher operates on; the iv,
produced in the source by crypto.randomBytes(IV_LENGTH), is an explicit
argument. -/

/-- Source function encrypt: fresh iv, aes-256-cbc, returns
hex(iv) followed by a colon and hex(ciphertext). -/
def encrypt (C : BlockCipher) (iv : List Byte) (text : List Byte) : Str :=
  hexEncode iv ++ ':' :: hexEncode (flattenBlocks (cbcEncBlocks C iv (toBlocks (pad16 text))))

/-- Source function decrypt: split on colons, first part is the iv, the rest
re-joined with colons is the ciphertext; both are hex-decoded with node
semantics. createDecipheriv throws when the iv buffer is not 16 bytes; the
decipher throws when the ciphertext is empty or not a whole number of blocks
(wrong final block length) or when the padding is rejected (bad decrypt).
Every throw is caught and surfaced as the single decryption error, modelled
as none. -/
def decrypt (C : BlockCipher) (token : Str) : Option (List Byte) :=
  match splitOnColon token with
  | [] => none
  | [_] => none
  | p0 :: ps =>
    if (hexDecodeNode p0).length = 16 then
      if (hexDecodeNode (joinColon ps)).length ≠ 0 ∧
          (hexDecodeNode (joinColon ps)).length % 16 = 0 then
        unpad16 (flattenBlocks (cbcDecBlocks C (hexDecodeNode p0)
          (toBlocks (hexDecodeNode (joinColon ps)))))
      else none
    else none

/-! ## JS string primitives used by the handlers -/

/-- Length contribution of a code point in a JS string (UTF-16 code units):
astral code points count twice (surrogate pair). String.prototype.length. -/
def jsCharLen (c : Char) : Nat := if c.toNat < 65536 then 1 else 2

/-- JS String.prototype.length of a string. -/
def jsLength (s : Str) : Nat := (s.map jsCharLen).sum

/-- Bytes a code point occupies in UTF-8, the encoding Buffer.from applies
to a string given no encoding argument. -/
def utf8CharLen (c : Char) : Nat :=
  if c.toNat < 128 then 1
  else if c.toNat < 2048 then 2
  else if c.toNat < 65536 then 3
  else 4

/-- Byte length of the UTF-8 encoding of a string (Buffer.from(s).length). -/
def utf8Len (s : Str) : Nat := (s.map utf8CharLen).sum

/-- Whitespace for String.prototype.trim: ASCII blanks, line terminators,
NBSP and the BOM (the exit keywords and keys at issue are ASCII, so the
exact Unicode space class is immaterial to the properties proved). -/
def isJsSpace (c : Char) : Bool :=
  c.toNat = 32 ∨ c.toNat = 9 ∨ c.toNat = 10 ∨ c.toNat = 13 ∨
  c.toNat = 11 ∨ c.toNat = 12 ∨ c.toNat = 160 ∨ c.toNat = 65279

/-- JS String.prototype.trim. -/
def jsTrim (s : Str) : Str :=
  ((s.dropWhile isJsSpace).reverse.dropWhile isJsSpace).reverse

/-- JS String.prototype.toLowerCase restricted to ASCII letters; no
non-ASCII code point lower-cases to a letter of exit or stop, so the
restriction does not affect exit-keyword detection. -/
def lowerChar (c : Char) : Char :=
  if 65 ≤ c.toNat ∧ c.toNat ≤ 90 then Char.ofNat (c.toNat + 32) else c

/-- Lowercasing of a whole string. -/
def toLowerJs (s : Str) : Str := s.map lowerChar

/-! ## The user store (userData object and user_data.json) -/

/-- One value of the userData object: promptId and openaiKey fields, each
possibly absent. openaiKey holds a ciphertext token, never plaintext. -/
structure UserRecord where
  promptId : Option Str := none
  openaiKey : Option Str := none
deriving DecidableEq

/-- The userData object: an association from user id to record. -/
abbrev UserData := List (Str × UserRecord)

/-- Property read userData[u], none when the key is absent. -/
def lookupUD : UserData → Str → Option UserRecord
  | [], _ => none
  | (k, r) :: rest, u => if k = u then some r else lookupUD rest u

/-- Property write userData[u] = r. -/
def setRecord : UserData → Str → UserRecord → UserData
  | [], u, r => [(u, r)]
  | (k, r0) :: rest, u, r =>
    if k = u then (u, r) :: rest else (k, r0) :: setRecord rest u r

/-- Lazy initialisation in the interactionCreate handler:
if (!userData[userId]) userData[userId] = \x7b\x7d. -/
def ensureRecord (ud : UserData) (u : Str) : UserData :=
  match lookupUD ud u with
  | some _ => ud
  | none => setRecord ud u {}

/-- The record for u, the empty record when absent. -/
def getRecord (ud : UserData) (u : Str) : UserRecord :=
  (lookupUD ud u).getD {}

/-- Field assignment userData[u].promptId = p. -/
def updatePrompt (ud : UserData) (u : Str) (p : Str) : UserData :=
  setRecord ud u { getRecord ud u with promptId := some p }

/-- Stored instruction of u as the chat handler reads it:
userData[userId]?.promptId. -/
def readPrompt (ud : UserData) (u : Str) : Option Str :=
  (lookupUD ud u).bind (·.promptId)

/-- Stored credential token of u: userData[userId]?.openaiKey. -/
def readKey (ud : UserData) (u : Str) : Option Str :=
  (lookupUD ud u).bind (·.openaiKey)

/-! ## Observable effects of the handlers

Replies and channel sends are abstracted to tags carrying the data that
varies; the literal message templates are glue. Logging to console and the
log file is elided except for the session-end line, which a claim names. -/

/-- User-visible replies the handlers can produce. -/
inductive Reply
  /-- you already have an active session, type exit to end it first -/
  | conflict (u : Str)
  /-- you have no saved OpenAI API key, use setkey first -/
  | noKey
  /-- failed to read your key, please reset it with setkey -/
  | badKey
  /-- no custom prompt found -/
  | noPrompt
  /-- announcement of the active custom system prompt, start of session -/
  | sessionIntro (prompt : Str)
  /-- chat session ended acknowledgment after an exit keyword -/
  | exitAck
  /-- the completion content relayed to the user -/
  | completion (text : Str)
  /-- the no response from OpenAI fallback when the parsed JSON has no content -/
  | noResponse
  /-- failed to get a valid response from OpenAI (JSON.parse threw) -/
  | parseFailNotice
  /-- error communicating with OpenAI API (request error event) -/
  | transportFailNotice
  /-- your prompt is too long, n of 4000 characters used -/
  | promptTooLong (u : Str) (n : Nat)
  /-- your custom prompt has been saved -/
  | promptSaved (u : Str) (n : Nat)
deriving DecidableEq

/-- Ordered observable effects of a handler run. -/
inductive Event
  /-- an interaction.reply or m.reply -/
  | reply (r : Reply)
  /-- saveUserData: the store is written to disk -/
  | persistStore
  /-- a request posted to the completion backend with system and user content -/
  | backendRequest (system user : Str)
  /-- logMessage of chat session ended, messages collected n -/
  | sessionLog (u : Str) (n : Nat)
  /-- channel.send of the session-expired notice naming the user -/
  | expiredNotice (u : Str)
deriving DecidableEq

/-- Global mutable state of the process: the ACTIVE_SESSIONS set and the
userData object. -/
structure BotState where
  activeSessions : List Str
  userData : UserData
deriving DecidableEq

/-! ## The chat command handler (src/index.js lines 143-248) -/

/-- Result of handleChatCommand: the state after the handler returns, the
effect trace, and the system prompt of the created message collector when
one was created (none when the command was denied). -/
structure ChatResult where
  state : BotState
  trace : List Event
  started : Option Str
deriving DecidableEq

/-- Source function handleChatCommand up to collector creation. JS
truthiness: an inline prompt that is the empty string is falsy and falls
back to the stored one, and an empty stored prompt is denied; an absent
openaiKey is none (encrypt never returns an empty token, so the falsy and
absent cases of encryptedKey coincide). The transient deletion of the
intro reply after 60 seconds is a UI timer with no bearing on state. -/
def handleChatCommand (C : BlockCipher) (st : BotState) (u : Str)
    (inlineP : Option Str) : ChatResult :=
  if u ∈ st.activeSessions then ⟨st, [.reply (.conflict u)], none⟩
  else
    match readKey st.userData u with
    | none => ⟨st, [.reply .noKey], none⟩
    | some encKey =>
      match decrypt C encKey with
      | none => ⟨st, [.reply .badKey], none⟩
      | some _key =>
        if (match inlineP with | some p => !p.isEmpty | none => false) then
          let p := inlineP.getD []
          let st1 := { st with userData := updatePrompt st.userData u p }
          let st2 := { st1 with activeSessions := u :: st1.activeSessions }
          ⟨st2, [.persistStore, .reply (.sessionIntro p)], some p⟩
        else
          match readPrompt st.userData u with
          | none => ⟨st, [.reply .noPrompt], none⟩
          | some p =>
            if p.isEmpty then ⟨st, [.reply .noPrompt], none⟩
            else
              let st2 := { st with activeSessions := u :: st.activeSessions }
              ⟨st2, [.reply (.sessionIntro p)], some p⟩

/-- The chat branch of interactionCreate: lazy record initialisation, then
the chat handler. -/
def chatCommand (C : BlockCipher) (st : BotState) (u : Str)
    (inlineP : Option Str) : ChatResult :=
  handleChatCommand C { st with userData := ensureRecord st.userData u } u inlineP

/-! ## The setprompt command (src/index.js lines 258-280) -/

/-- The setprompt branch of interactionCreate: reject beyond 4000 UTF-16
characters with no mutation, otherwise store and persist. -/
def setpromptCommand (st : BotState) (u : Str) (p : Str) : BotState × List Event :=
  let st0 : BotState := { st with userData := ensureRecord st.userData u }
  let n := jsLength p
  if n > 4000 then (st0, [.reply (.promptTooLong u n)])
  else
    ({ st0 with userData := updatePrompt st0.userData u p },
     [.persistStore, .reply (.promptSaved u n)])

/-! ## The message collector (src/index.js lines 189-247) -/

/-- Outcome of the https round trip for one forwarded message; the backend
is an external collaborator, so the outcome accompanies the incoming
message as data. -/
inductive BackendOutcome
  /-- response parsed, choices[0].message.content present -/
  | ok (text : Str)
  /-- response parsed but without content: the literal no-response fallback -/
  | missingContent
  /-- JSON.parse threw -/
  | badJson
  /-- the request emitted an error event -/
  | reqError
deriving DecidableEq

/-- Inputs the collector can observe: an incoming channel message with its
author, channel and content, or the expiry of the five-minute timer. -/
inductive InEvent
  | msg (author : Str) (channel : Str) (content : Str) (backend : BackendOutcome)
  | timeout
deriving DecidableEq

/-- Collector state: the global state it mutates on end, the size of the
collected set, and whether the collector has stopped. -/
structure CollState where
  botSt : BotState
  count : Nat
  stopped : Bool
deriving DecidableEq

/-- The end listener (lines 243-247): delete from ACTIVE_SESSIONS, log the
collected count, and send the session-expired notice; the source runs this
on every termination, with no reason check. -/
def endSession (u : Str) (s : CollState) : CollState × List Event :=
  ({ s with
      stopped := true,
      botSt := { s.botSt with
        activeSessions := s.botSt.activeSessions.filter (fun v => v != u) } },
   [.sessionLog u s.count, .expiredNotice u])

/-- One step of the collector: the filter admits messages from the admitted
user in the originating channel; an admitted message joins the collected
set; a trimmed, lowercased exit keyword acknowledges and stops; any other
admitted message is forwarded and the backend outcome is relayed, the
collector staying live; the timeout fires the end listener. -/
def collectStep (u ch prompt : Str) (s : CollState) (e : InEvent) :
    CollState × List Event :=
  if s.stopped then (s, [])
  else
    match e with
    | .timeout => endSession u s
    | .msg a c content backend =>
      if a = u ∧ c = ch then
        if toLowerJs (jsTrim content) = "exit".data ∨
            toLowerJs (jsTrim content) = "stop".data then
          ((endSession u { s with count := s.count + 1 }).1,
           .reply .exitAck :: (endSession u { s with count := s.count + 1 }).2)
        else
          match backend with
          | .ok t => ({ s with count := s.count + 1 },
              [.backendRequest prompt (jsTrim content), .reply (.completion t)])
          | .missingContent => ({ s with count := s.count + 1 },
              [.backendRequest prompt (jsTrim content), .reply .noResponse])
          | .badJson => ({ s with count := s.count + 1 },
              [.backendRequest prompt (jsTrim content), .reply .parseFailNotice])
          | .reqError => ({ s with count := s.count + 1 },
              [.backendRequest prompt (jsTrim content), .reply .transportFailNotice])
      else (s, [])

/-- The collector run over a finite sequence of observed inputs. -/
def runCollector (u ch prompt : Str) (s : CollState) :
    List InEvent → CollState × List Event
  | [] => (s, [])
  | e :: rest =>
    ((runCollector u ch prompt (collectStep u ch prompt s e).1 rest).1,
     (collectStep u ch prompt s e).2 ++
       (runCollector u ch prompt (collectStep u ch prompt s e).1 rest).2)

/-- A whole chat session: the chat command, then, when a collector was
created, the collector consuming the given inputs. -/
def runChatSession (C : BlockCipher) (st : BotState) (u ch : Str)
    (inlineP : Option Str) (events : List InEvent) : BotState × List Event :=
  match (chatCommand C st u inlineP).started with
  | none => ((chatCommand C st u inlineP).state, (chatCommand C st u inlineP).trace)
  | some prompt =>
    ((runCollector u ch prompt ⟨(chatCommand C st u inlineP).state, 0, false⟩ events).1.botSt,
     (chatCommand C st u inlineP).trace ++
       (runCollector u ch prompt ⟨(chatCommand C st u inlineP).state, 0, false⟩ events).2)

/-! ## Startup key validation (src/index.js lines 11-17) -/

/-- The startup check: ENCRYPTION_KEY is read from the environment and
trimmed; the process exits fatally unless the result is truthy and its JS
length (UTF-16 code units) is exactly 32. -/
def startupKeyCheck (envKey : Option Str) : Bool :=
  match envKey with
  | none => false
  | some k =>
    let t := jsTrim k
    if t.isEmpty then false else jsLength t == 32

/-- Acceptance condition of createCipheriv for the aes-256-cbc key argument
Buffer.from(ENCRYPTION_KEY): the UTF-8 byte buffer must be exactly 32
bytes, else the cipher constructor throws an invalid key length error. -/
def cipherKeyOk (k : Str) : Bool := utf8Len k == 32

/-! ## Predicates for the decryption-failure claim -/

/-- Reading of the failure condition in which hex decoding of a segment
itself can fail: some character of the nonce segment or of the re-joined
ciphertext segment is not a hex digit. Modelled from the spec sentence, for
comparison with the code's lenient behavior. -/
def strictHexFails (t : Str) : Bool :=
  match splitOnColon t with
  | [] => false
  | p0 :: ps => !allHex p0 || !allHex (joinColon ps)

/-- The cipher-rejects-padding condition of the claim: the token decodes
structurally (16-byte nonce, nonempty whole-block ciphertext) and the
unpadding of the CBC decryption is rejected. -/
def cipherRejectsPadding (C : BlockCipher) (t : Str) : Bool :=
  match splitOnColon t with
  | [] => false
  | [_] => false
  | p0 :: ps =>
    decide ((hexDecodeNode p0).length = 16) &&
    decide ((hexDecodeNode (joinColon ps)).length ≠ 0) &&
    decide ((hexDecodeNode (joinColon ps)).length % 16 = 0) &&
    (unpad16 (flattenBlocks (cbcDecBlocks C (hexDecodeNode p0)
      (toBlocks (hexDecodeNode (joinColon ps)))))).isNone

/-- The claim on decryption failure as stated: decrypt fails exactly when
the token has fewer than two colon-delimited parts, hex-decoding of the
nonce or ciphertext segment fails, or the cipher rejects the padding. -/
def claimDecryptFailIff (C : BlockCipher) (t : Str) : Prop :=
  decrypt C t = none ↔
    ((splitOnColon t).length < 2 ∨ strictHexFails t = true ∨
      cipherRejectsPadding C t = true)

/-- The failure condition the code actually implements, as one flat
disjunction: fewer than two parts, a leniently decoded nonce that is not 16
bytes, a leniently decoded ciphertext that is empty or not a whole number of
blocks, or rejected padding. -/
def decryptFailCond (C : BlockCipher) (t : Str) : Bool :=
  match splitOnColon t with
  | [] => true
  | [_] => true
  | p0 :: ps =>
    decide ((hexDecodeNode p0).length ≠ 16) ||
    decide ((hexDecodeNode (joinColon ps)).length = 0) ||
    decide ((hexDecodeNode (joinColon ps)).length % 16 ≠ 0) ||
    (unpad16 (flattenBlocks (cbcDecBlocks C (hexDecodeNode p0)
      (toBlocks (hexDecodeNode (joinColon ps)))))).isNone

/-! ## Concrete material for evaluating the model -/

/-- A concrete well-formed token: 16 zero nonce bytes and one ciphertext
block that decrypts (under the identity block core) to sixteen bytes of
value 16, a full padding block, hence to the empty plaintext. -/
def demoToken : Str :=
  "00000000000000000000000000000000:10101010101010101010101010101010".data

/-- The demo token with two trailing non-hex characters appended to the
ciphertext segment. -/
def badToken : Str := demoToken ++ ['z', 'z']

/-! ## Lemmas on the hex codec -/

theorem hexDigit_toHex (d : Fin 16) : hexDigitVal (toHexChar d) = some d := by
  revert d; decide

theorem toHex_ne_colon (d : Fin 16) : toHexChar d ≠ ':' := by
  revert d; decide

theorem hexDecode_hexByte (b : Byte) (rest : Str) :
    hexDecodeNode (hexByte b ++ rest) = b :: hexDecodeNode rest := by
  show hexDecodeNode (toHexChar _ :: toHexChar _ :: rest) = _
  rw [hexDecodeNode]
  rw [hexDigit_toHex, hexDigit_toHex]
  simp only [List.cons.injEq, and_true]
  apply Fin.ext
  show 16 * (b.val / 16) + b.val % 16 = b.val
  exact Nat.div_add_mod b.val 16

theorem hexDecode_hexEncode_append (bs : List Byte) (rest : Str) :
    hexDecodeNode (hexEncode bs ++ rest) = bs ++ hexDecodeNode rest := by
  induction bs with
  | nil => rfl
  | cons b bs ih =>
    show hexDecodeNode ((hexByte b ++ hexEncode bs) ++ rest) = _
    rw [List.append_assoc, hexDecode_hexByte, ih]
    rfl

theorem hexDecode_hexEncode (bs : List Byte) :
    hexDecodeNode (hexEncode bs) = bs := by
  have h := hexDecode_hexEncode_append bs []
  simpa [hexDecodeNode] using h

theorem mem_hexEncode_ne_colon (bs : List Byte) :
    ∀ c ∈ hexEncode bs, c ≠ ':' := by
  induction bs with
  | nil => intro c hc; cases hc
  | cons b bs ih =>
    intro c hc
    rcases List.mem_append.mp hc with h | h
    · rcases List.mem_cons.mp h with h1 | h1
      · subst h1; exact toHex_ne_colon _
      · rcases List.mem_cons.mp h1 with h2 | h2
        · subst h2; exact toHex_ne_colon _
        · cases h2
    · exact ih c h

/-! ## Lemmas on splitting and joining -/

theorem splitOnColon_no_colon (s : Str) (h : ∀ c ∈ s, c ≠ ':') :
    splitOnColon s = [s] := by
  induction s with
  | nil => rfl
  | cons c cs ih =>
    have hc : c ≠ ':' := h c (List.mem_cons_self c cs)
    rw [splitOnColon, if_neg hc, ih fun x hx => h x (List.mem_cons_of_mem c hx)]

theorem splitOnColon_append_colon (a b : Str) (h : ∀ c ∈ a, c ≠ ':') :
    splitOnColon (a ++ ':' :: b) = a :: splitOnColon b := by
  induction a with
  | nil =>
    show splitOnColon (':' :: b) = [] :: splitOnColon b
    rw [splitOnColon, if_pos rfl]
  | cons c cs ih =>
    have hc : c ≠ ':' := h c (List.mem_cons_self c cs)
    show splitOnColon (c :: (cs ++ ':' :: b)) = _
    rw [splitOnColon, if_neg hc, ih fun x hx => h x (List.mem_cons_of_mem c hx)]

/-! ## Lemmas on padding -/

theorem padLen_pos (n : Nat) : 1 ≤ padLen n := by
  unfold padLen; omega

theorem padLen_le (n : Nat) : padLen n ≤ 16 := by
  unfold padLen; omega

theorem pad16_length (xs : List Byte) :
    (pad16 xs).length = xs.length + padLen xs.length := by
  unfold pad16; simp

theorem pad16_mod (xs : List Byte) : (pad16 xs).length % 16 = 0 := by
  rw [pad16_length]; unfold padLen; omega

theorem pad16_ne_nil (xs : List Byte) : pad16 xs ≠ [] := by
  intro h
  have hl := congrArg List.length h
  rw [pad16_length] at hl
  have hp := padLen_pos xs.length
  simp only [List.length_nil] at hl
  omega

theorem getLast?_replicate_succ (n : Nat) (a : Byte) :
    (List.replicate (n + 1) a).getLast? = some a := by
  rw [List.getLast?_eq_head?_reverse, List.reverse_replicate]
  rfl

theorem unpad_append_replicate (xs : List Byte) (nb : Byte)
    (h1 : 1 ≤ nb.val) (h16 : nb.val ≤ 16) :
    unpad16 (xs ++ List.replicate nb.val nb) = some xs := by
  obtain ⟨m, hm⟩ : ∃ m, nb.val = m + 1 := ⟨nb.val - 1, by omega⟩
  have hlast : (xs ++ List.replicate nb.val nb).getLast? = some nb := by
    rw [List.getLast?_append, hm, getLast?_replicate_succ]
    rfl
  have hlen : (xs ++ List.replicate nb.val nb).length = xs.length + nb.val := by
    simp
  have hsub : xs.length + nb.val - nb.val = xs.length := by omega
  unfold unpad16
  rw [hlast]
  show (if 1 ≤ nb.val ∧ nb.val ≤ 16 ∧
      nb.val ≤ (xs ++ List.replicate nb.val nb).length ∧
      ((xs ++ List.replicate nb.val nb).drop
        ((xs ++ List.replicate nb.val nb).length - nb.val)).all (· = nb)
    then some ((xs ++ List.replicate nb.val nb).take
        ((xs ++ List.replicate nb.val nb).length - nb.val))
    else none) = some xs
  have hcond : 1 ≤ nb.val ∧ nb.val ≤ 16 ∧
      nb.val ≤ (xs ++ List.replicate nb.val nb).length ∧
      ((xs ++ List.replicate nb.val nb).drop
        ((xs ++ List.replicate nb.val nb).length - nb.val)).all (· = nb) = true := by
    refine ⟨h1, h16, ?_, ?_⟩
    · rw [hlen]; omega
    · rw [hlen, hsub]
      have hdrop : (xs ++ List.replicate nb.val nb).drop xs.length =
          List.replicate nb.val nb := List.drop_left xs _
      rw [hdrop, List.all_eq_true]
      intro x hx
      simp [List.eq_of_mem_replicate hx]
  rw [if_pos hcond, hlen, hsub, List.take_left]

theorem unpad16_pad16 (xs : List Byte) : unpad16 (pad16 xs) = some xs := by
  have hpos : 1 ≤ padLen xs.length := padLen_pos xs.length
  have hle : padLen xs.length ≤ 16 := padLen_le xs.length
  exact unpad_append_replicate xs ⟨padLen xs.length, by omega⟩ hpos hle

/-! ## Lemmas on blocks -/

theorem toBlocksF_fuel (n : Nat) (xs : List Byte) (h : xs.length ≤ n) :
    toBlocksF n xs = toBlocksF xs.length xs := by
  induction n using Nat.strong_induction_on generalizing xs with
  | _ n ih =>
    cases xs with
    | nil => cases n <;> rfl
    | cons x r =>
      cases n with
      | zero => simp at h
      | succ m =>
        show (x :: r).take 16 :: toBlocksF m ((x :: r).drop 16)
            = (x :: r).take 16 :: toBlocksF r.length ((x :: r).drop 16)
        have hlen : ((x :: r).drop 16).length ≤ r.length := by
          simp only [List.length_drop, List.length_cons]
          omega
        have hm : r.length ≤ m := by simpa using h
        rw [ih m (by omega) _ (le_trans hlen hm), ih r.length (by omega) _ hlen]

theorem toBlocks_cons_eq (xs : List Byte) (h : xs ≠ []) :
    toBlocks xs = xs.take 16 :: toBlocks (xs.drop 16) := by
  cases xs with
  | nil => exact absurd rfl h
  | cons x r =>
    show (x :: r).take 16 :: toBlocksF r.length ((x :: r).drop 16) = _
    have hlen : ((x :: r).drop 16).length ≤ r.length := by
      simp only [List.length_drop, List.length_cons]
      omega
    rw [toBlocksF_fuel r.length _ hlen]
    rfl

theorem toBlocks_nil : toBlocks ([] : List Byte) = [] := rfl

theorem toBlocks_append16 (a b : List Byte) (h : a.length = 16) :
    toBlocks (a ++ b) = a :: toBlocks b := by
  have hne : a ++ b ≠ [] := by
    intro hc
    have := congrArg List.length hc
    simp [h] at this
  rw [toBlocks_cons_eq _ hne, List.take_left' h, List.drop_left' h]

theorem flattenBlocks_toBlocks_aux (n : Nat) :
    ∀ xs : List Byte, xs.length ≤ n → flattenBlocks (toBlocks xs) = xs := by
  induction n with
  | zero =>
    intro xs h
    have hx : xs = [] := List.length_eq_zero.mp (by omega)
    subst hx
    rfl
  | succ n ih =>
    intro xs h
    by_cases hxs : xs = []
    · subst hxs; rfl
    · rw [toBlocks_cons_eq _ hxs, flattenBlocks]
      have hlen0 : xs.length ≠ 0 := fun hz => hxs (List.length_eq_zero.mp hz)
      rw [ih (xs.drop 16) (by simp; omega)]
      exact List.take_append_drop 16 xs

theorem flattenBlocks_toBlocks (xs : List Byte) :
    flattenBlocks (toBlocks xs) = xs :=
  flattenBlocks_toBlocks_aux xs.length xs (Nat.le_refl _)

theorem toBlocks_flattenBlocks (bl : List (List Byte))
    (h : ∀ b ∈ bl, b.length = 16) :
    toBlocks (flattenBlocks bl) = bl := by
  induction bl with
  | nil => exact toBlocks_nil
  | cons b bs ih =>
    rw [flattenBlocks, toBlocks_append16 _ _ (h b (List.mem_cons_self b bs)),
      ih fun x hx => h x (List.mem_cons_of_mem b hx)]

theorem flattenBlocks_length16 (bl : List (List Byte))
    (h : ∀ b ∈ bl, b.length = 16) :
    (flattenBlocks bl).length = 16 * bl.length := by
  induction bl with
  | nil => rfl
  | cons b bs ih =>
    rw [flattenBlocks]
    simp only [List.length_append, List.length_cons]
    rw [h b (List.mem_cons_self b bs), ih fun x hx => h x (List.mem_cons_of_mem b hx)]
    ring

theorem toBlocks_blocks_length_aux (n : Nat) :
    ∀ xs : List Byte, xs.length ≤ n → xs.length % 16 = 0 →
      ∀ b ∈ toBlocks xs, b.length = 16 := by
  induction n with
  | zero =>
    intro xs hle _ b hb
    have hx : xs = [] := List.length_eq_zero.mp (by omega)
    subst hx
    rw [toBlocks_nil] at hb
    cases hb
  | succ n ih =>
    intro xs hle h b hb
    by_cases hxs : xs = []
    · subst hxs; rw [toBlocks_nil] at hb; cases hb
    · rw [toBlocks_cons_eq _ hxs] at hb
      have hlen0 : xs.length ≠ 0 := fun hz => hxs (List.length_eq_zero.mp hz)
      have h16 : 16 ≤ xs.length := by omega
      rcases List.mem_cons.mp hb with hb1 | hb1
      · subst hb1; simp; omega
      · exact ih (xs.drop 16) (by simp; omega) (by simp; omega) b hb1

theorem toBlocks_blocks_length (xs : List Byte) (h : xs.length % 16 = 0) :
    ∀ b ∈ toBlocks xs, b.length = 16 :=
  toBlocks_blocks_length_aux xs.length xs (Nat.le_refl _) h

theorem toBlocks_ne_nil (xs : List Byte) (h : xs ≠ []) : toBlocks xs ≠ [] := by
  rw [toBlocks_cons_eq _ h]
  simp

/-! ## Lemmas on xor and CBC -/

theorem xorB_xorB (a b : Byte) : xorB a (xorB a b) = b := by
  apply Fin.ext
  show a.val ^^^ (a.val ^^^ b.val) = b.val
  rw [← Nat.xor_assoc, Nat.xor_self, Nat.zero_xor]

theorem zipXor_length (a b : List Byte) (h : a.length = b.length) :
    (zipXor a b).length = a.length := by
  unfold zipXor
  rw [List.length_zipWith, h]
  simp

theorem zipXor_zipXor (p b : List Byte) (h : p.length = b.length) :
    zipXor p (zipXor p b) = b := by
  induction p generalizing b with
  | nil =>
    cases b with
    | nil => rfl
    | cons x xs => simp at h
  | cons x xs ih =>
    cases b with
    | nil => simp at h
    | cons y ys =>
      show xorB x (xorB x y) :: zipXor xs (zipXor xs ys) = y :: ys
      rw [xorB_xorB, ih ys (by simpa using h)]

theorem cbcEnc_blocks_length (C : BlockCipher) (hC : C.Valid)
    (prev : List Byte) (bs : List (List Byte)) (hprev : prev.length = 16)
    (hbs : ∀ b ∈ bs, b.length = 16) :
    ∀ c ∈ cbcEncBlocks C prev bs, c.length = 16 := by
  induction bs generalizing prev with
  | nil => intro c hc; cases hc
  | cons b bs ih =>
    intro c hc
    have hb : b.length = 16 := hbs b (List.mem_cons_self b bs)
    have hzip : (zipXor prev b).length = 16 := by
      rw [zipXor_length prev b (by omega)]; exact hprev
    have henc : (C.enc (zipXor prev b)).length = 16 := hC.2 _ hzip
    rcases List.mem_cons.mp hc with hc1 | hc1
    · subst hc1; exact henc
    · exact ih (C.enc (zipXor prev b)) henc
        (fun x hx => hbs x (List.mem_cons_of_mem b hx)) c hc1

theorem cbcEnc_count (C : BlockCipher) (prev : List Byte)
    (bs : List (List Byte)) :
    (cbcEncBlocks C prev bs).length = bs.length := by
  induction bs generalizing prev with
  | nil => rfl
  | cons b bs ih =>
    show (cbcEncBlocks C prev (b :: bs)).length = bs.length + 1
    rw [cbcEncBlocks]
    simp only [List.length_cons]
    rw [ih]

theorem cbcDec_cbcEnc (C : BlockCipher) (hC : C.Valid) (prev : List Byte)
    (bs : List (List Byte)) (hprev : prev.length = 16)
    (hbs : ∀ b ∈ bs, b.length = 16) :
    cbcDecBlocks C prev (cbcEncBlocks C prev bs) = bs := by
  induction bs generalizing prev with
  | nil => rfl
  | cons b bs ih =>
    have hb : b.length = 16 := hbs b (List.mem_cons_self b bs)
    have hzip : (zipXor prev b).length = 16 := by
      rw [zipXor_length prev b (by omega)]; exact hprev
    have henc : (C.enc (zipXor prev b)).length = 16 := hC.2 _ hzip
    show cbcDecBlocks C prev
        (C.enc (zipXor prev b) :: cbcEncBlocks C (C.enc (zipXor prev b)) bs) = b :: bs
    rw [cbcDecBlocks]
    rw [hC.1 _ hzip, zipXor_zipXor prev b (by omega),
      ih (C.enc (zipXor prev b)) henc fun x hx => hbs x (List.mem_cons_of_mem b hx)]

/-! ## The decrypt-encrypt round trip -/

theorem decrypt_encrypt (C : BlockCipher) (hC : C.Valid) (iv : List Byte)
    (hiv : iv.length = 16) (s : List Byte) :
    decrypt C (encrypt C iv s) = some s := by
  unfold encrypt decrypt
  set blocks := toBlocks (pad16 s) with hblocks
  have hbl : ∀ b ∈ blocks, b.length = 16 :=
    toBlocks_blocks_length (pad16 s) (pad16_mod s)
  set encBlocks := cbcEncBlocks C iv blocks with hencBlocks
  have hencbl : ∀ c ∈ encBlocks, c.length = 16 :=
    cbcEnc_blocks_length C hC iv blocks hiv hbl
  set ct := flattenBlocks encBlocks with hct
  have hsplit : splitOnColon (hexEncode iv ++ ':' :: hexEncode ct) =
      [hexEncode iv, hexEncode ct] := by
    rw [splitOnColon_append_colon _ _ (mem_hexEncode_ne_colon iv),
      splitOnColon_no_colon _ (mem_hexEncode_ne_colon ct)]
  rw [hsplit]
  show (if (hexDecodeNode (hexEncode iv)).length = 16 then
      if (hexDecodeNode (joinColon [hexEncode ct])).length ≠ 0 ∧
          (hexDecodeNode (joinColon [hexEncode ct])).length % 16 = 0 then
        unpad16 (flattenBlocks (cbcDecBlocks C (hexDecodeNode (hexEncode iv))
          (toBlocks (hexDecodeNode (joinColon [hexEncode ct])))))
      else none
    else none) = some s
  have hjoin : joinColon [hexEncode ct] = hexEncode ct := rfl
  simp only [hjoin, hexDecode_hexEncode]
  rw [if_pos hiv]
  have hctlen : ct.length = 16 * encBlocks.length :=
    flattenBlocks_length16 encBlocks hencbl
  have hcount : encBlocks.length = blocks.length := cbcEnc_count C iv blocks
  have hblne : blocks ≠ [] := toBlocks_ne_nil (pad16 s) (pad16_ne_nil s)
  have hblpos : 0 < blocks.length := List.length_pos.mpr hblne
  have hctcond : ct.length ≠ 0 ∧ ct.length % 16 = 0 := by
    constructor
    · rw [hctlen, hcount]; omega
    · rw [hctlen]; omega
  rw [if_pos hctcond]
  rw [toBlocks_flattenBlocks encBlocks hencbl]
  rw [cbcDec_cbcEnc C hC iv blocks hiv hbl]
  rw [flattenBlocks_toBlocks (pad16 s)]
  exact unpad16_pad16 s


/-! ## Lemmas on the user store -/

theorem lookup_setRecord (ud : UserData) (u : Str) (r : UserRecord) (v : Str) :
    lookupUD (setRecord ud u r) v = if u = v then some r else lookupUD ud v := by
  induction ud with
  | nil => rfl
  | cons kv rest ih =>
    obtain ⟨k, r0⟩ := kv
    by_cases hku : k = u
    · subst hku
      by_cases hv : k = v
      · subst hv
        simp [setRecord, lookupUD]
      · simp [setRecord, lookupUD, hv]
    · by_cases hv : k = v
      · subst hv
        have huv : ¬u = k := fun h => hku h.symm
        simp [setRecord, lookupUD, hku, huv]
      · simp [setRecord, lookupUD, hku, hv, ih]

theorem readPrompt_ensure (ud : UserData) (u v : Str) :
    readPrompt (ensureRecord ud u) v = readPrompt ud v := by
  unfold ensureRecord
  cases h : lookupUD ud u with
  | some r => rfl
  | none =>
    unfold readPrompt
    rw [lookup_setRecord]
    by_cases huv : u = v
    · subst huv
      rw [if_pos rfl, h]
      rfl
    · rw [if_neg huv]

theorem readKey_ensure (ud : UserData) (u v : Str) :
    readKey (ensureRecord ud u) v = readKey ud v := by
  unfold ensureRecord
  cases h : lookupUD ud u with
  | some r => rfl
  | none =>
    unfold readKey
    rw [lookup_setRecord]
    by_cases huv : u = v
    · subst huv
      rw [if_pos rfl, h]
      rfl
    · rw [if_neg huv]

theorem readPrompt_updatePrompt_self (ud : UserData) (u : Str) (p : Str) :
    readPrompt (updatePrompt ud u p) u = some p := by
  unfold readPrompt updatePrompt
  rw [lookup_setRecord, if_pos rfl]
  rfl

theorem readPrompt_updatePrompt_other (ud : UserData) (u v : Str) (p : Str)
    (h : u ≠ v) :
    readPrompt (updatePrompt ud u p) v = readPrompt ud v := by
  unfold readPrompt updatePrompt
  rw [lookup_setRecord, if_neg h]

/-! ## Path lemmas for the chat command handler -/

theorem chatCommand_conflict (C : BlockCipher) (st : BotState) (u : Str)
    (p : Option Str) (h : u ∈ st.activeSessions) :
    chatCommand C st u p =
      ⟨{ st with userData := ensureRecord st.userData u },
       [.reply (.conflict u)], none⟩ := by
  unfold chatCommand handleChatCommand
  rw [if_pos h]

theorem chatCommand_noKey (C : BlockCipher) (st : BotState) (u : Str)
    (p : Option Str) (h : u ∉ st.activeSessions)
    (hk : readKey st.userData u = none) :
    chatCommand C st u p =
      ⟨{ st with userData := ensureRecord st.userData u },
       [.reply .noKey], none⟩ := by
  unfold chatCommand handleChatCommand
  rw [if_neg h]
  have hk' : readKey (ensureRecord st.userData u) u = none := by
    rw [readKey_ensure, hk]
  simp only [hk']

theorem chatCommand_inline_start (C : BlockCipher) (st : BotState) (u : Str)
    (p : Str) (encKey : Str) (key : List Byte)
    (h : u ∉ st.activeSessions)
    (hk : readKey st.userData u = some encKey)
    (hd : decrypt C encKey = some key)
    (hp : p ≠ []) :
    chatCommand C st u (some p) =
      ⟨⟨u :: st.activeSessions, updatePrompt (ensureRecord st.userData u) u p⟩,
       [.persistStore, .reply (.sessionIntro p)], some p⟩ := by
  unfold chatCommand handleChatCommand
  rw [if_neg h]
  have hk' : readKey (ensureRecord st.userData u) u = some encKey := by
    rw [readKey_ensure, hk]
  simp only [hk', hd]
  have hpe : p.isEmpty = false := by
    cases p with
    | nil => exact absurd rfl hp
    | cons c cs => rfl
  simp [hpe]

/-! ## Lemmas on string lengths -/

theorem jsLength_replicate (n : Nat) (c : Char) :
    jsLength (List.replicate n c) = n * jsCharLen c := by
  unfold jsLength
  rw [List.map_replicate, List.sum_replicate, smul_eq_mul]

theorem jsLength_ascii (t : Str) (h : ∀ c ∈ t, c.toNat < 128) :
    jsLength t = t.length := by
  induction t with
  | nil => rfl
  | cons c cs ih =>
    have hc : jsCharLen c = 1 := by
      unfold jsCharLen
      rw [if_pos]
      have := h c (List.mem_cons_self c cs)
      omega
    simp only [jsLength, List.map_cons, List.sum_cons, List.length_cons]
    rw [hc]
    have := ih fun x hx => h x (List.mem_cons_of_mem c hx)
    simp only [jsLength] at this
    omega

theorem utf8Len_ascii (t : Str) (h : ∀ c ∈ t, c.toNat < 128) :
    utf8Len t = t.length := by
  induction t with
  | nil => rfl
  | cons c cs ih =>
    have hc : utf8CharLen c = 1 := by
      unfold utf8CharLen
      rw [if_pos]
      exact h c (List.mem_cons_self c cs)
    simp only [utf8Len, List.map_cons, List.sum_cons, List.length_cons]
    rw [hc]
    have := ih fun x hx => h x (List.mem_cons_of_mem c hx)
    simp only [utf8Len] at this
    omega

/-! ## Lemmas on the collector -/

theorem not_mem_filter_self (l : List Str) (u : Str) :
    u ∉ l.filter (fun v => v != u) := by
  intro h
  have hm := List.mem_filter.mp h
  simp at hm

theorem runCollector_stopped (u ch pr : Str) (s : CollState)
    (evs : List InEvent) (h : s.stopped = true) :
    runCollector u ch pr s evs = (s, []) := by
  induction evs with
  | nil => rfl
  | cons e rest ih =>
    have h1 : collectStep u ch pr s e = (s, []) := by
      unfold collectStep
      rw [if_pos h]
    unfold runCollector
    rw [h1, ih]
    rfl

theorem collectStep_stop (u ch pr : Str) (s : CollState) (e : InEvent)
    (hs : s.stopped = false)
    (hstop : (collectStep u ch pr s e).1.stopped = true) :
    Event.sessionLog u (collectStep u ch pr s e).1.count
        ∈ (collectStep u ch pr s e).2 ∧
    u ∉ (collectStep u ch pr s e).1.botSt.activeSessions := by
  obtain ⟨sb, sn, sst⟩ := s
  have hsst : sst = false := hs
  subst hsst
  cases e with
  | timeout =>
    refine ⟨List.mem_cons_self _ _, ?_⟩
    exact not_mem_filter_self sb.activeSessions u
  | msg a c content bo =>
    by_cases hq : a = u ∧ c = ch
    · by_cases hx : toLowerJs (jsTrim content) = "exit".data ∨
          toLowerJs (jsTrim content) = "stop".data
      · simp only [collectStep, endSession, Bool.false_eq_true, if_false,
          if_pos hq, if_pos hx]
        refine ⟨?_, ?_⟩
        · exact List.mem_cons_of_mem _ (List.mem_cons_self _ _)
        · exact not_mem_filter_self sb.activeSessions u
      · exfalso
        simp only [collectStep, Bool.false_eq_true, if_false, if_pos hq,
          if_neg hx] at hstop
        cases bo <;> simp at hstop
    · exfalso
      simp only [collectStep, Bool.false_eq_true, if_false, if_neg hq] at hstop

theorem runCollector_stop_releases (u ch pr : Str) (s : CollState)
    (events : List InEvent) (hs : s.stopped = false)
    (hterm : (runCollector u ch pr s events).1.stopped = true) :
    Event.sessionLog u (runCollector u ch pr s events).1.count
        ∈ (runCollector u ch pr s events).2 ∧
    u ∉ (runCollector u ch pr s events).1.botSt.activeSessions := by
  induction events generalizing s with
  | nil =>
    exfalso
    rw [runCollector] at hterm
    rw [hs] at hterm
    cases hterm
  | cons e rest ih =>
    by_cases h1 : (collectStep u ch pr s e).1.stopped = true
    · have hfrozen := runCollector_stopped u ch pr (collectStep u ch pr s e).1 rest h1
      have hcs := collectStep_stop u ch pr s e hs h1
      unfold runCollector
      rw [hfrozen]
      simp only [List.append_nil]
      exact hcs
    · have h1f : (collectStep u ch pr s e).1.stopped = false := by
        cases hsc : (collectStep u ch pr s e).1.stopped with
        | true => exact absurd hsc h1
        | false => rfl
      unfold runCollector at hterm ⊢
      have hrec := ih (collectStep u ch pr s e).1 h1f hterm
      exact ⟨List.mem_append_right _ hrec.1, hrec.2⟩

/-! ## Claim theorems -/

/-- C1: a user identifier has at most one live session at any time. A chat
command issued while the user already has an active session is denied with
the conflict message, leaves the session set and every stored instruction
and credential unaffected and creates no collector; and any identifier
active after the command either was active before or is the invoking user,
admitted only after the admission check found no active session for them. -/
theorem claim_C1_single_session (C : BlockCipher) (st : BotState) (u : Str)
    (p : Option Str) :
    (u ∈ st.activeSessions →
      (chatCommand C st u p).trace = [.reply (.conflict u)] ∧
      (chatCommand C st u p).state.activeSessions = st.activeSessions ∧
      (∀ v, readPrompt (chatCommand C st u p).state.userData v
              = readPrompt st.userData v ∧
            readKey (chatCommand C st u p).state.userData v
              = readKey st.userData v) ∧
      (chatCommand C st u p).started = none) ∧
    (∀ v, v ∈ (chatCommand C st u p).state.activeSessions →
      v ∈ st.activeSessions ∨ (v = u ∧ u ∉ st.activeSessions)) := by
  constructor
  · intro h
    rw [chatCommand_conflict C st u p h]
    refine ⟨rfl, rfl, ?_, rfl⟩
    intro v
    exact ⟨readPrompt_ensure _ _ _, readKey_ensure _ _ _⟩
  · intro v hv
    by_cases h : u ∈ st.activeSessions
    · rw [chatCommand_conflict C st u p h] at hv
      exact Or.inl hv
    · revert hv
      unfold chatCommand handleChatCommand
      rw [if_neg h]
      split
      · intro hv; exact Or.inl hv
      · split
        · intro hv; exact Or.inl hv
        · split
          · intro hv
            rcases List.mem_cons.mp hv with h1 | h1
            · exact Or.inr ⟨h1, h⟩
            · exact Or.inl h1
          · split
            · intro hv; exact Or.inl hv
            · split
              · intro hv; exact Or.inl hv
              · intro hv
                rcases List.mem_cons.mp hv with h1 | h1
                · exact Or.inr ⟨h1, h⟩
                · exact Or.inl h1

/-- Witness for C1 at a concrete state in which the user is active. -/
theorem claim_C1_single_session_witness :
    (chatCommand idCipher ⟨[['u']], []⟩ ['u'] none).trace
        = [.reply (.conflict ['u'])] ∧
    (chatCommand idCipher ⟨[['u']], []⟩ ['u'] none).state.activeSessions
        = [['u']] :=
  ⟨((claim_C1_single_session idCipher ⟨[['u']], []⟩ ['u'] none).1 (by decide)).1,
   ((claim_C1_single_session idCipher ⟨[['u']], []⟩ ['u'] none).1 (by decide)).2.1⟩

/-- C2: the decryption of the encryption of any plaintext returns that
plaintext, for any valid block cipher core, any 16-byte nonce, through the
hex token format with the colon separator. -/
theorem claim_C2_roundtrip (C : BlockCipher) (hC : C.Valid) (iv : List Byte)
    (hiv : iv.length = 16) (s : List Byte) :
    decrypt C (encrypt C iv s) = some s :=
  decrypt_encrypt C hC iv hiv s

/-- Witness for C2 at a concrete cipher, nonce and plaintext. -/
theorem claim_C2_roundtrip_witness :
    decrypt idCipher (encrypt idCipher (List.replicate 16 (0 : Byte))
      [(104 : Byte), (105 : Byte)]) = some [(104 : Byte), (105 : Byte)] :=
  claim_C2_roundtrip idCipher ⟨fun _ _ => rfl, fun _ h => h⟩ _ (by simp) _

/-- C3 fails on the code: the chat command stores an inline instruction of
4001 characters for a user with a decryptable credential, so a reachable
store state holds an instruction over the 4000-character limit. -/
theorem claim_C3_counterexample :
    4000 < jsLength ((readPrompt (chatCommand idCipher
        ⟨[], [(['u'], ⟨none, some demoToken⟩)]⟩ ['u']
        (some (List.replicate 4001 'a'))).state.userData ['u']).getD []) := by
  have hne : List.replicate 4001 'a' ≠ ([] : Str) := by
    intro hc
    have hl := congrArg List.length hc
    rw [List.length_replicate, List.length_nil] at hl
    exact absurd hl (by omega)
  have h := chatCommand_inline_start idCipher ⟨[], [(['u'], ⟨none, some demoToken⟩)]⟩
    ['u'] (List.replicate 4001 'a') demoToken [] (by decide) (by decide) (by decide) hne
  rw [h]
  simp only [readPrompt_updatePrompt_self, Option.getD_some]
  rw [jsLength_replicate]
  have : jsCharLen 'a' = 1 := by decide
  rw [this]
  omega

/-- C3 amended: writes of the custom instruction through setprompt reject
text over 4000 characters and leave every stored instruction unchanged; the
chat command stores an inline instruction with no length check, so the
stored instruction can exceed the limit. -/
theorem claim_C3_amended (st : BotState) (u : Str) (p : Str)
    (hlong : jsLength p > 4000) :
    ((setpromptCommand st u p).2 = [.reply (.promptTooLong u (jsLength p))] ∧
     (∀ v, readPrompt (setpromptCommand st u p).1.userData v
        = readPrompt st.userData v)) ∧
    (∀ C st2 u2 encKey key, u2 ∉ st2.activeSessions →
      readKey st2.userData u2 = some encKey →
      decrypt C encKey = some key → p ≠ [] →
      readPrompt (chatCommand C st2 u2 (some p)).state.userData u2 = some p) := by
  constructor
  · unfold setpromptCommand
    rw [if_pos hlong]
    exact ⟨rfl, fun v => readPrompt_ensure _ _ _⟩
  · intro C st2 u2 encKey key h2 hk2 hd2 hp2
    rw [chatCommand_inline_start C st2 u2 p encKey key h2 hk2 hd2 hp2]
    exact readPrompt_updatePrompt_self _ _ _

/-- Witness for the amended C3 at a concrete overlong instruction. -/
theorem claim_C3_amended_witness :
    (setpromptCommand ⟨[], []⟩ ['u'] (List.replicate 4001 'a')).2
      = [.reply (.promptTooLong ['u'] (jsLength (List.replicate 4001 'a')))] := by
  have hlong : jsLength (List.replicate 4001 'a') > 4000 := by
    rw [jsLength_replicate]
    have : jsCharLen 'a' = 1 := by decide
    rw [this]
    omega
  exact ((claim_C3_amended ⟨[], []⟩ ['u'] (List.replicate 4001 'a') hlong).1).1

/-- C8: setInstruction at the boundary: a 4000-character instruction is
stored and persisted with the saved acknowledgment; a 4001-character
instruction is rejected with the too-long message before any mutation, the
previously stored instruction remaining readable unchanged. -/
theorem claim_C8_validation_boundary (st : BotState) (u : Str) (p q : Str) :
    (jsLength p = 4000 →
      (setpromptCommand st u p).2
          = [.persistStore, .reply (.promptSaved u 4000)] ∧
      readPrompt (setpromptCommand st u p).1.userData u = some p) ∧
    (jsLength q = 4001 →
      (setpromptCommand st u q).2 = [.reply (.promptTooLong u 4001)] ∧
      readPrompt (setpromptCommand st u q).1.userData u
          = readPrompt st.userData u) := by
  constructor
  · intro h4
    have hnot : ¬ jsLength p > 4000 := by omega
    unfold setpromptCommand
    rw [if_neg hnot, h4]
    exact ⟨rfl, readPrompt_updatePrompt_self _ _ _⟩
  · intro h4
    have hgt : jsLength q > 4000 := by omega
    unfold setpromptCommand
    rw [if_pos hgt, h4]
    exact ⟨rfl, readPrompt_ensure _ _ _⟩

/-- Witness for C8 at concrete instructions of lengths 4000 and 4001. -/
theorem claim_C8_validation_boundary_witness :
    readPrompt (setpromptCommand ⟨[], []⟩ ['u']
        (List.replicate 4000 'a')).1.userData ['u']
      = some (List.replicate 4000 'a') ∧
    (setpromptCommand ⟨[], []⟩ ['u'] (List.replicate 4001 'a')).2
      = [.reply (.promptTooLong ['u'] 4001)] := by
  have ha : jsCharLen 'a' = 1 := by decide
  have h0 : jsLength (List.replicate 4000 'a') = 4000 := by
    rw [jsLength_replicate, ha]
  have h1 : jsLength (List.replicate 4001 'a') = 4001 := by
    rw [jsLength_replicate, ha]
  exact ⟨((claim_C8_validation_boundary ⟨[], []⟩ ['u'] (List.replicate 4000 'a')
      (List.replicate 4001 'a')).1 h0).2,
    ((claim_C8_validation_boundary ⟨[], []⟩ ['u'] (List.replicate 4000 'a')
      (List.replicate 4001 'a')).2 h1).1⟩

/-- C9 fails on the code: the startup check counts UTF-16 characters, not
decoded bytes. A 32-character key whose last character is a two-byte code
point passes the check, yet its UTF-8 buffer is 33 bytes, which the cipher
constructor rejects as an invalid key size. -/
theorem claim_C9_counterexample :
    startupKeyCheck (some (List.replicate 31 'a' ++ ['é'])) = true ∧
    cipherKeyOk (jsTrim (List.replicate 31 'a' ++ ['é'])) = false := by
  constructor <;> decide

/-- C9 amended: the startup check guarantees the trimmed key is exactly 32
UTF-16 characters; when every character of the trimmed key is ASCII this is
exactly 32 UTF-8 bytes, so the cipher constructor accepts the key and
encrypt and decrypt cannot fail from key size; an absent key always fails
the check. -/
theorem claim_C9_amended (envKey : Str)
    (hpass : startupKeyCheck (some envKey) = true)
    (hascii : ∀ c ∈ jsTrim envKey, c.toNat < 128) :
    cipherKeyOk (jsTrim envKey) = true ∧ startupKeyCheck none = false := by
  refine ⟨?_, rfl⟩
  have hpass' : (if (jsTrim envKey).isEmpty = true then false
      else (jsLength (jsTrim envKey) == 32)) = true := hpass
  by_cases he : (jsTrim envKey).isEmpty = true
  · rw [if_pos he] at hpass'
    cases hpass'
  · rw [if_neg he] at hpass'
    have hlen : jsLength (jsTrim envKey) = 32 := by simpa using hpass'
    have hjs := jsLength_ascii (jsTrim envKey) hascii
    have hutf := utf8Len_ascii (jsTrim envKey) hascii
    unfold cipherKeyOk
    rw [hutf, ← hjs, hlen]
    rfl

/-- Witness for the amended C9 at a concrete all-ASCII 32-character key. -/
theorem claim_C9_amended_witness :
    cipherKeyOk (jsTrim (List.replicate 32 'a')) = true ∧
    startupKeyCheck none = false :=
  claim_C9_amended (List.replicate 32 'a') (by decide) (by decide)

/-- C10: for a user with a stored decryptable credential and no active
session, a chat command with a nonempty inline instruction stores that
instruction, persists the store before the session introduction begins the
exchange, and creates the collector on the inline instruction; for a user
with no stored credential the command is denied before the save, leaving
every stored instruction unchanged and creating no collector. -/
theorem claim_C10_inline_overwrite (C : BlockCipher) (st : BotState)
    (u : Str) (p : Str) (encKey : Str) (key : List Byte)
    (h : u ∉ st.activeSessions)
    (hk : readKey st.userData u = some encKey)
    (hd : decrypt C encKey = some key)
    (hp : p ≠ []) :
    (readPrompt (chatCommand C st u (some p)).state.userData u = some p ∧
     (chatCommand C st u (some p)).trace
        = [.persistStore, .reply (.sessionIntro p)] ∧
     (chatCommand C st u (some p)).started = some p) ∧
    (∀ st2 u2 p2, u2 ∉ st2.activeSessions → readKey st2.userData u2 = none →
      (chatCommand C st2 u2 (some p2)).trace = [.reply .noKey] ∧
      (∀ v, readPrompt (chatCommand C st2 u2 (some p2)).state.userData v
          = readPrompt st2.userData v) ∧
      (chatCommand C st2 u2 (some p2)).started = none) := by
  constructor
  · rw [chatCommand_inline_start C st u p encKey key h hk hd hp]
    exact ⟨readPrompt_updatePrompt_self _ _ _, rfl, rfl⟩
  · intro st2 u2 p2 h2 hk2
    rw [chatCommand_noKey C st2 u2 (some p2) h2 hk2]
    exact ⟨rfl, fun v => readPrompt_ensure _ _ _, rfl⟩

/-- Witness for C10 at a concrete store holding a decryptable token. -/
theorem claim_C10_inline_overwrite_witness :
    readPrompt (chatCommand idCipher ⟨[], [(['u'], ⟨none, some demoToken⟩)]⟩
        ['u'] (some ['q'])).state.userData ['u'] = some ['q'] ∧
    (chatCommand idCipher ⟨[], [(['u'], ⟨none, some demoToken⟩)]⟩
        ['u'] (some ['q'])).trace
      = [.persistStore, .reply (.sessionIntro ['q'])] :=
  ⟨((claim_C10_inline_overwrite idCipher ⟨[], [(['u'], ⟨none, some demoToken⟩)]⟩
      ['u'] ['q'] demoToken [] (by decide) (by decide) (by decide) (by decide)).1).1,
   ((claim_C10_inline_overwrite idCipher ⟨[], [(['u'], ⟨none, some demoToken⟩)]⟩
      ['u'] ['q'] demoToken [] (by decide) (by decide) (by decide) (by decide)).1).2.1⟩

/-- C4 is violated by the code: the end listener sends the
expired-after-five-minutes notice on every termination without inspecting
the reason, so a session the user ends with the exit keyword emits both the
exit acknowledgment and the timeout notice, with no timeout having
occurred. -/
theorem claim_C4_timeout_notice_on_exit :
    Event.reply .exitAck ∈ (runChatSession idCipher
        ⟨[], [(['u'], ⟨some ['p'], some demoToken⟩)]⟩ ['u'] ['c'] none
        [.msg ['u'] ['c'] "exit".data (.ok [])]).2 ∧
    Event.expiredNotice ['u'] ∈ (runChatSession idCipher
        ⟨[], [(['u'], ⟨some ['p'], some demoToken⟩)]⟩ ['u'] ['c'] none
        [.msg ['u'] ['c'] "exit".data (.ok [])]).2 := by
  constructor <;> decide

/-- C5 fails on the code: the demo token with a non-hex tail on its
ciphertext segment has a failing hex segment in the sense of the claim, yet
decrypt succeeds, because node hex decoding truncates at the first invalid
character instead of failing; the identity core satisfies the block cipher
contract, so the failure is not an artifact of the abstraction. -/
theorem claim_C5_counterexample :
    idCipher.Valid ∧ ¬ claimDecryptFailIff idCipher badToken := by
  refine ⟨⟨fun _ _ => rfl, fun _ h => h⟩, ?_⟩
  unfold claimDecryptFailIff
  decide

/-- C5 amended: decrypt fails exactly when the token has fewer than two
colon-delimited parts, the leniently decoded nonce is not 16 bytes, the
leniently decoded ciphertext is empty or not a whole number of blocks, or
the unpadding is rejected; hex decoding never fails outright — an invalid
character truncates the segment — so a token with a non-hex tail can
decrypt successfully. -/
theorem claim_C5_amended (C : BlockCipher) (t : Str) :
    decrypt C t = none ↔ decryptFailCond C t = true := by
  unfold decrypt decryptFailCond
  cases hsp : splitOnColon t with
  | nil => simp
  | cons p0 rest =>
    cases rest with
    | nil => simp
    | cons q ps =>
      by_cases hiv : (hexDecodeNode p0).length = 16
      · by_cases hct : (hexDecodeNode (joinColon (q :: ps))).length ≠ 0 ∧
            (hexDecodeNode (joinColon (q :: ps))).length % 16 = 0
        · simp [hiv, hct.1, hct.2, Option.isNone_iff_eq_none]
        · by_cases hz : (hexDecodeNode (joinColon (q :: ps))).length = 0
          · simp [hiv, hz]
          · have hmod : (hexDecodeNode (joinColon (q :: ps))).length % 16 ≠ 0 :=
              fun hm => hct ⟨hz, hm⟩
            simp [hiv, hz, hmod]
      · simp [hiv]

/-- C6: whenever a collector run terminates, the trace contains the
session-release log line carrying the final collected count and the user is
no longer in the active-session set; on the concrete exchange of one
forwarded message followed by the exit keyword, the logged count is 2, the
completion reply reached the user, and the registry returns to idle. -/
theorem claim_C6_release_and_log (u ch prompt : Str) (s : CollState)
    (events : List InEvent) (hs : s.stopped = false)
    (hterm : (runCollector u ch prompt s events).1.stopped = true) :
    (Event.sessionLog u (runCollector u ch prompt s events).1.count
        ∈ (runCollector u ch prompt s events).2 ∧
     u ∉ (runCollector u ch prompt s events).1.botSt.activeSessions) ∧
    (Event.sessionLog ['u'] 2 ∈ (runChatSession idCipher
        ⟨[], [(['u'], ⟨some ['p'], some demoToken⟩)]⟩ ['u'] ['c'] none
        [.msg ['u'] ['c'] "hello".data (.ok "hi there".data),
         .msg ['u'] ['c'] "exit".data (.ok [])]).2 ∧
     Event.reply (.completion "hi there".data) ∈ (runChatSession idCipher
        ⟨[], [(['u'], ⟨some ['p'], some demoToken⟩)]⟩ ['u'] ['c'] none
        [.msg ['u'] ['c'] "hello".data (.ok "hi there".data),
         .msg ['u'] ['c'] "exit".data (.ok [])]).2 ∧
     (runChatSession idCipher
        ⟨[], [(['u'], ⟨some ['p'], some demoToken⟩)]⟩ ['u'] ['c'] none
        [.msg ['u'] ['c'] "hello".data (.ok "hi there".data),
         .msg ['u'] ['c'] "exit".data (.ok [])]).1.activeSessions = []) :=
  ⟨runCollector_stop_releases u ch prompt s events hs hterm,
   by decide, by decide, by decide⟩

/-- Witness for C6 at a concrete timed-out run. -/
theorem claim_C6_release_and_log_witness :
    Event.sessionLog ['u'] 0 ∈ (runCollector ['u'] ['c'] ['p']
        ⟨⟨[['u']], []⟩, 0, false⟩ [.timeout]).2 ∧
    ['u'] ∉ (runCollector ['u'] ['c'] ['p']
        ⟨⟨[['u']], []⟩, 0, false⟩ [.timeout]).1.botSt.activeSessions :=
  ⟨((claim_C6_release_and_log ['u'] ['c'] ['p'] ⟨⟨[['u']], []⟩, 0, false⟩
      [.timeout] rfl (by decide)).1).1,
   ((claim_C6_release_and_log ['u'] ['c'] ['p'] ⟨⟨[['u']], []⟩, 0, false⟩
      [.timeout] rfl (by decide)).1).2⟩

/-- C7: within an active exchange the only terminal events are the
inactivity timeout and a qualifying message whose trimmed, lowercased
content is exit or stop; a backend parse failure or transport failure on
any other qualifying message leaves the collector live and produces exactly
the forwarded request and the matching fallback notice. -/
theorem claim_C7_terminal_events (u ch prompt : Str) (s : CollState)
    (e : InEvent) (hs : s.stopped = false) :
    ((collectStep u ch prompt s e).1.stopped = true ↔
      (e = .timeout ∨ ∃ a c content bo, e = .msg a c content bo ∧
        a = u ∧ c = ch ∧
        (toLowerJs (jsTrim content) = "exit".data ∨
         toLowerJs (jsTrim content) = "stop".data))) ∧
    (∀ content bo,
      ¬(toLowerJs (jsTrim content) = "exit".data ∨
        toLowerJs (jsTrim content) = "stop".data) →
      ((bo = .badJson ∨ bo = .reqError) →
        (collectStep u ch prompt s (.msg u ch content bo)).1.stopped = false) ∧
      (bo = .badJson →
        (collectStep u ch prompt s (.msg u ch content bo)).2 =
          [.backendRequest prompt (jsTrim content), .reply .parseFailNotice]) ∧
      (bo = .reqError →
        (collectStep u ch prompt s (.msg u ch content bo)).2 =
          [.backendRequest prompt (jsTrim content), .reply .transportFailNotice])) := by
  obtain ⟨sb, sn, sst⟩ := s
  have hsst : sst = false := hs
  subst hsst
  constructor
  · cases e with
    | timeout => exact ⟨fun _ => Or.inl rfl, fun _ => rfl⟩
    | msg a c content bo =>
      by_cases hq : a = u ∧ c = ch
      · by_cases hx : toLowerJs (jsTrim content) = "exit".data ∨
            toLowerJs (jsTrim content) = "stop".data
        · constructor
          · intro _
            exact Or.inr ⟨a, c, content, bo, rfl, hq.1, hq.2, hx⟩
          · intro _
            simp only [collectStep, endSession, Bool.false_eq_true, if_false,
              if_pos hq, if_pos hx]
        · constructor
          · intro hstop
            exfalso
            simp only [collectStep, Bool.false_eq_true, if_false, if_pos hq,
              if_neg hx] at hstop
            cases bo <;> simp at hstop
          · intro hrhs
            exfalso
            rcases hrhs with h | ⟨a2, c2, ct2, bo2, heq, _, _, hx2⟩
            · cases h
            · cases heq
              exact hx hx2
      · constructor
        · intro hstop
          exfalso
          simp only [collectStep, Bool.false_eq_true, if_false,
            if_neg hq] at hstop
        · intro hrhs
          exfalso
          rcases hrhs with h | ⟨a2, c2, ct2, bo2, heq, ha2, hc2, _⟩
          · cases h
          · cases heq
            exact hq ⟨ha2, hc2⟩
  · intro content bo hx
    have hq : u = u ∧ ch = ch := ⟨rfl, rfl⟩
    refine ⟨?_, ?_, ?_⟩
    · intro hbo
      rcases hbo with hbo | hbo <;> subst hbo <;> simp [collectStep, hx]
    · intro hbo
      subst hbo
      simp [collectStep, hx]
    · intro hbo
      subst hbo
      simp [collectStep, hx]

/-- Witness for C7 at a concrete live state, transport-failed message and
timeout. -/
theorem claim_C7_terminal_events_witness :
    (collectStep ['u'] ['c'] ['p'] ⟨⟨[['u']], []⟩, 0, false⟩
        (.msg ['u'] ['c'] "hello".data .reqError)).1.stopped = false ∧
    (collectStep ['u'] ['c'] ['p'] ⟨⟨[['u']], []⟩, 0, false⟩
        (.msg ['u'] ['c'] "hello".data .reqError)).2 =
      [.backendRequest ['p'] (jsTrim "hello".data), .reply .transportFailNotice] ∧
    (collectStep ['u'] ['c'] ['p'] ⟨⟨[['u']], []⟩, 0, false⟩ .timeout).1.stopped
      = true :=
  ⟨(((claim_C7_terminal_events ['u'] ['c'] ['p'] ⟨⟨[['u']], []⟩, 0, false⟩
        (.msg ['u'] ['c'] "hello".data .reqError) rfl).2
      "hello".data .reqError (by decide)).1 (Or.inr rfl)),
   (((claim_C7_terminal_events ['u'] ['c'] ['p'] ⟨⟨[['u']], []⟩, 0, false⟩
        (.msg ['u'] ['c'] "hello".data .reqError) rfl).2
      "hello".data .reqError (by decide)).2.2 rfl),
   ((claim_C7_terminal_events ['u'] ['c'] ['p'] ⟨⟨[['u']], []⟩, 0, false⟩
        .timeout rfl).1.mpr (Or.inl rfl))⟩

end Promptly
